import Mathlib

/-!
Verification of the mini-gpt tokenizer subsystem (`src/mini_gpt/tokenizer.py`).

The Python module is shallowly embedded: Python `str` becomes `List Char`,
Python `dict` becomes an association list manipulated with `dictGet?` /
`dictInsert` (lookup by key; insertion updates a present key in place and
appends an absent key at the end, which is exactly CPython's insertion-order
dict semantics, on which the training loop's tie-break depends).
All definitions are executable so that concrete runs can be settled by
`decide` / `rfl`.
-/

namespace MiniGPT

/-- A token is a Python string: a list of characters. -/
abbrev Token := List Char

/-- Python dict lookup `d[k]` / `k in d` (keys are unique, so first match). -/
def dictGet? {α β : Type} [DecidableEq α] (d : List (α × β)) (k : α) : Option β :=
  match d with
  | [] => none
  | (k', v) :: rest => if k' = k then some v else dictGet? rest k

/-- Python dict assignment `d[k] = v`: update a present key in place,
append an absent key at the end (CPython insertion order). -/
def dictInsert {α β : Type} [DecidableEq α] (d : List (α × β)) (k : α) (v : β) :
    List (α × β) :=
  match d with
  | [] => [(k, v)]
  | (k', v') :: rest => if k' = k then (k, v) :: rest else (k', v') :: dictInsert rest k v

-- Special tokens (module-level constants of tokenizer.py).

def UNK_TOKEN : Token := "<UNK>".data
def UNK_ID : Nat := 0
def PAD_TOKEN : Token := "<PAD>".data
def PAD_ID : Nat := 1
def BOS_TOKEN : Token := "<BOS>".data
def BOS_ID : Nat := 2
def EOS_TOKEN : Token := "<EOS>".data
def EOS_ID : Nat := 3

/-- The list `[UNK_TOKEN, PAD_TOKEN, BOS_TOKEN, EOS_TOKEN]` used by both
`decode` implementations to skip special tokens. -/
def specialTokens : List Token := [UNK_TOKEN, PAD_TOKEN, BOS_TOKEN, EOS_TOKEN]

def MIN_VOCAB_SIZE : Nat := 100
def MAX_VOCAB_SIZE : Nat := 50000

/-- `{v: k for k, v in vocab.items()}`: successive dict writes, so for
duplicate values the last key wins. -/
def buildReverseVocab (v : List (Token × Nat)) : List (Nat × Token) :=
  v.foldl (fun rv p => dictInsert rv p.2 p.1) []

-- ## SimpleTokenizer

/-- `SimpleTokenizer`: a vocabulary dict and its maintained reverse dict. -/
structure SimpleTokenizer where
  vocab : List (Token × Nat)
  reverse_vocab : List (Nat × Token)
deriving DecidableEq

/-- `SimpleTokenizer.__init__`: build the reverse vocab and ensure that
`UNK_TOKEN` is present (inserted with id `UNK_ID` if absent). -/
def mkSimpleTokenizer (vocab : List (Token × Nat)) : SimpleTokenizer :=
  let rv := buildReverseVocab vocab
  if (dictGet? vocab UNK_TOKEN).isSome then ⟨vocab, rv⟩
  else ⟨dictInsert vocab UNK_TOKEN UNK_ID, dictInsert rv UNK_ID UNK_TOKEN⟩

/-- The inner loop of `SimpleTokenizer.encode`: for `j` from `i+1` to
`len(text)` the source checks `text[i:j]` (our `s.take (j - i)`) and keeps the
last — hence longest — match found.  `scanMatchAux vocab s n` is the result of
that scan over the prefix lengths `1 .. n`: the hit at the greatest length,
if any. -/
def scanMatchAux (vocab : List (Token × Nat)) (s : Token) : Nat → Option (Token × Nat)
  | 0 => none
  | n + 1 =>
    match dictGet? vocab (s.take (n + 1)) with
    | some id => some (s.take (n + 1), id)
    | none => scanMatchAux vocab s n

/-- The longest prefix of `s` present in `vocab`, with its id (the value of
`longest_match, longest_match_id` after the inner `for` loop). -/
def scanMatch (vocab : List (Token × Nat)) (s : Token) : Option (Token × Nat) :=
  scanMatchAux vocab s s.length

/-- The `while i < len(text)` loop of `SimpleTokenizer.encode`, recursing on
the remaining suffix.  Every step consumes at least one character, so fuel
`len(text)` (supplied by `greedyEncode`) always suffices and the `0` fuel
case is never reached from `greedyEncode`. -/
def encodeFuel (vocab : List (Token × Nat)) : Nat → List Char → List Nat
  | 0, _ => []
  | _ + 1, [] => []
  | fuel + 1, c :: rest =>
    match scanMatch vocab (c :: rest) with
    | some (m, id) => id :: encodeFuel vocab fuel ((c :: rest).drop m.length)
    | none => UNK_ID :: encodeFuel vocab fuel rest

/-- `SimpleTokenizer.encode` on a raw vocabulary: greedy longest match,
left to right; an unmatched position emits `UNK_ID` and advances by one. -/
def greedyEncode (vocab : List (Token × Nat)) (text : List Char) : List Nat :=
  encodeFuel vocab text.length text

def SimpleTokenizer.encode (self : SimpleTokenizer) (text : List Char) : List Nat :=
  greedyEncode self.vocab text

/-- The shared decode loop of `SimpleTokenizer.decode` and
`BPETokenizer.decode`: known non-special ids contribute their token, known
special ids are skipped, unknown ids contribute the placeholder `"?"`. -/
def decodeTokens (rv : List (Nat × Token)) : List Nat → List Token
  | [] => []
  | id :: rest =>
    match dictGet? rv id with
    | some tok =>
      if tok ∈ specialTokens then decodeTokens rv rest
      else tok :: decodeTokens rv rest
    | none => ['?'] :: decodeTokens rv rest

def SimpleTokenizer.decode (self : SimpleTokenizer) (ids : List Nat) : List Char :=
  (decodeTokens self.reverse_vocab ids).flatten

/-- The persisted form of a `SimpleTokenizer`:
`{"vocab": ..., "type": "SimpleTokenizer"}`. -/
structure SavedSimple where
  vocab : List (Token × Nat)
  tag : List Char
deriving DecidableEq

def SimpleTokenizer.save (self : SimpleTokenizer) : SavedSimple :=
  ⟨self.vocab, "SimpleTokenizer".data⟩

/-- `SimpleTokenizer.load`: check the type tag, then replace the vocab and
rebuild the reverse vocab. -/
def SimpleTokenizer.load (_self : SimpleTokenizer) (d : SavedSimple) :
    Except (List Char) SimpleTokenizer :=
  if d.tag = "SimpleTokenizer".data then .ok ⟨d.vocab, buildReverseVocab d.vocab⟩
  else .error "File is not a SimpleTokenizer".data

-- ## BPETokenizer

/-- CPython's `str.isspace()` code points, the separators of `str.split()`
and `str.strip()` with no arguments. -/
def pythonWhitespaceCodes : List Nat :=
  [9, 10, 11, 12, 13, 28, 29, 30, 31, 32, 133, 160, 0x1680,
   0x2000, 0x2001, 0x2002, 0x2003, 0x2004, 0x2005, 0x2006, 0x2007,
   0x2008, 0x2009, 0x200A, 0x2028, 0x2029, 0x202F, 0x205F, 0x3000]

def isPySpace (c : Char) : Bool := pythonWhitespaceCodes.contains c.toNat

/-- Helper for `pySplit`: `acc` holds the reversed current word. -/
def pySplitAux : List Char → List Char → List (List Char)
  | [], acc => if acc = [] then [] else [acc.reverse]
  | c :: rest, acc =>
    if isPySpace c then
      if acc = [] then pySplitAux rest [] else acc.reverse :: pySplitAux rest []
    else pySplitAux rest (c :: acc)

/-- Python `text.split()`: split on runs of whitespace, dropping empties. -/
def pySplit (text : List Char) : List (List Char) := pySplitAux text []

/-- The word-boundary marker `"▁"` prepended to every word. -/
def markerChar : Char := '▁'

/-- `BPETokenizer`: target size, vocab dict, maintained reverse dict,
ordered merge list and word-frequency table. -/
structure BPETokenizer where
  vocab_size : Nat
  vocab : List (Token × Nat)
  reverse_vocab : List (Nat × Token)
  merges : List (Token × Token)
  word_freqs : List (Token × Nat)
deriving DecidableEq

/-- The vocabulary written by `_add_special_tokens`. -/
def specialVocab : List (Token × Nat) :=
  [(UNK_TOKEN, UNK_ID), (PAD_TOKEN, PAD_ID), (BOS_TOKEN, BOS_ID), (EOS_TOKEN, EOS_ID)]

def specialReverseVocab : List (Nat × Token) :=
  [(UNK_ID, UNK_TOKEN), (PAD_ID, PAD_TOKEN), (BOS_ID, BOS_TOKEN), (EOS_ID, EOS_TOKEN)]

/-- `BPETokenizer.__init__`: reject a target size outside
`[MIN_VOCAB_SIZE, MAX_VOCAB_SIZE]`, otherwise start from the special
tokens with no merges and no word frequencies. -/
def mkBPETokenizer (vocab_size : Nat) : Except (List Char) BPETokenizer :=
  if vocab_size < MIN_VOCAB_SIZE ∨ MAX_VOCAB_SIZE < vocab_size then
    .error "vocab_size must be between 100 and 50000".data
  else
    .ok { vocab_size := vocab_size, vocab := specialVocab,
          reverse_vocab := specialReverseVocab, merges := [], word_freqs := [] }

/-- `_count_word_frequencies`: split every text on whitespace, prepend the
marker to each word and count occurrences (a `Counter`, i.e. an
insertion-ordered dict). -/
def countWordFreqs (texts : List (List Char)) : List (Token × Nat) :=
  texts.foldl
    (fun wf text =>
      (pySplit text).foldl
        (fun wf w =>
          dictInsert wf (markerChar :: w) ((dictGet? wf (markerChar :: w)).getD 0 + 1))
        wf)
    []

/-- Sorted-set insertion used to model `sorted(set(chars))`: keep the list
strictly ascending by code point, ignoring duplicates. -/
def insertSortedChar (c : Char) : List Char → List Char
  | [] => [c]
  | d :: rest =>
    if c.toNat < d.toNat then c :: d :: rest
    else if c = d then d :: rest
    else d :: insertSortedChar c rest

/-- `sorted(set of all characters of the word_freqs keys)`. -/
def sortedChars (wf : List (Token × Nat)) : List Char :=
  wf.foldl (fun acc p => p.1.foldl (fun a c => insertSortedChar c a) acc) []

/-- `_initialize_character_tokens`: insert every unseen character, in sorted
order, with the next free id; the reverse dict records the id written. -/
def addCharTokens (vocab : List (Token × Nat)) (rv : List (Nat × Token))
    (wf : List (Token × Nat)) : List (Token × Nat) × List (Nat × Token) :=
  (sortedChars wf).foldl
    (fun p c =>
      if (dictGet? p.1 [c]).isSome then p
      else
        let v' := dictInsert p.1 [c] p.1.length
        (v', dictInsert p.2 (v'.length - 1) [c]))
    (vocab, rv)

/-- One pass of the merge-replay loop in `_word_to_tokens`: merge every
(left-to-right, non-overlapping) adjacent occurrence of `token1, token2`. -/
def mergePass (token1 token2 : Token) : List Token → List Token
  | t :: t2 :: rest =>
    if t = token1 ∧ t2 = token2 then (token1 ++ token2) :: mergePass token1 token2 rest
    else t :: mergePass token1 token2 (t2 :: rest)
  | l => l

/-- `_word_to_tokens`: start from single characters and replay every learned
merge in order. -/
def word_to_tokens (merges : List (Token × Token)) (word : Token) : List Token :=
  merges.foldl (fun tokens p => mergePass p.1 p.2 tokens) (word.map (fun c => [c]))

/-- `_count_pairs`: frequency-weighted counts of adjacent token pairs over
all words, accumulated into an insertion-ordered dict. -/
def count_pairs (wf : List (Token × Nat)) (merges : List (Token × Token)) :
    List ((Token × Token) × Nat) :=
  wf.foldl
    (fun pf p =>
      let tokens := word_to_tokens merges p.1
      (tokens.zip tokens.tail).foldl
        (fun pf pr => dictInsert pf pr ((dictGet? pf pr).getD 0 + p.2))
        pf)
    []

/-- `max(pair_freq, key=lambda x: pair_freq[x])`: the first key attaining the
maximal count, in dict insertion order (`max` only replaces its current best
on a strictly greater value). -/
def maxPairKey (pf : List ((Token × Token) × Nat)) : Option (Token × Token) :=
  match pf with
  | [] => none
  | e :: rest => some ((rest.foldl (fun best q => if best.2 < q.2 then q else best) e).1)

/-- `_merge_pair`: `vocab[merged] = len(vocab)` (the length read before the
assignment), then `reverse_vocab[len(vocab) - 1] = merged` (the length read
after the assignment). -/
def merge_pair (vocab : List (Token × Nat)) (rv : List (Nat × Token))
    (pair : Token × Token) : List (Token × Nat) × List (Nat × Token) :=
  let merged := pair.1 ++ pair.2
  let v' := dictInsert vocab merged vocab.length
  (v', dictInsert rv (v'.length - 1) merged)

/-- The `while len(self.vocab) < self.vocab_size` loop of `train`.  Each
iteration recomputes the pair frequencies, stops if there are none, and
otherwise merges the most frequent pair and appends it to the merge list.
The fuel only bounds the iteration count; `train` passes one more than the
total character count of the distinct words, which always suffices: every
iteration merges at least one adjacent occurrence of the selected pair
(the pair has a positive count under the current merge list, and the replay
in `_word_to_tokens` ends with exactly that new rule), so the total token
count over the distinct words — initially the total character count, and
always at least the number of words — strictly decreases. -/
def trainLoop (t : BPETokenizer) : Nat → BPETokenizer
  | 0 => t
  | fuel + 1 =>
    if t.vocab.length < t.vocab_size then
      match maxPairKey (count_pairs t.word_freqs t.merges) with
      | none => t
      | some pair =>
        let p := merge_pair t.vocab t.reverse_vocab pair
        trainLoop
          { t with vocab := p.1, reverse_vocab := p.2, merges := t.merges ++ [pair] }
          fuel
    else t

/-- Total character count of the word-frequency table's keys (the fuel bound
for `trainLoop`; see there). -/
def totalChars (wf : List (Token × Nat)) : Nat :=
  wf.foldl (fun n p => n + p.1.length) 0

/-- `BPETokenizer.train`: reject an empty corpus, else count word
frequencies, initialize character tokens and run the merge loop. -/
def BPETokenizer.train (self : BPETokenizer) (texts : List (List Char)) :
    Except (List Char) BPETokenizer :=
  if texts = [] then .error "Cannot train on empty corpus".data
  else
    .ok (trainLoop
      { self with
        word_freqs := countWordFreqs texts,
        vocab := (addCharTokens self.vocab self.reverse_vocab (countWordFreqs texts)).1,
        reverse_vocab := (addCharTokens self.vocab self.reverse_vocab (countWordFreqs texts)).2 }
      (totalChars (countWordFreqs texts) + 1))

/-- A failed Python `train` call raises before mutating the object, so the
caller's tokenizer is unchanged; `trainMut` returns the tokenizer visible
after the call together with the raised error, if any. -/
def BPETokenizer.trainMut (self : BPETokenizer) (texts : List (List Char)) :
    BPETokenizer × Option (List Char) :=
  match self.train texts with
  | .ok t => (t, none)
  | .error e => (self, some e)

/-- The per-token id lookup loop of `BPETokenizer.encode`: known tokens map
to their id, unknown tokens to `UNK_ID`. -/
def tokensToIds (vocab : List (Token × Nat)) : List Token → List Nat
  | [] => []
  | t :: rest =>
    (match dictGet? vocab t with
     | some id => id
     | none => UNK_ID) :: tokensToIds vocab rest

/-- `BPETokenizer.encode`: split on whitespace, prepend the marker to each
word, replay the merges and map the resulting tokens to ids. -/
def BPETokenizer.encode (self : BPETokenizer) (text : List Char) : List Nat :=
  ((pySplit text).map
    (fun w => tokensToIds self.vocab (word_to_tokens self.merges (markerChar :: w)))).flatten

/-- `text.replace("▁", " ")` for the single-character marker. -/
def replaceMarker (s : List Char) : List Char :=
  s.map (fun c => if c = markerChar then ' ' else c)

/-- Python `text.strip()`: drop leading and trailing whitespace. -/
def pyStrip (s : List Char) : List Char :=
  ((s.dropWhile (fun c => isPySpace c)).reverse.dropWhile (fun c => isPySpace c)).reverse

/-- `BPETokenizer.decode`: ids to tokens (skipping specials, `"?"` for
unknown ids), concatenate, turn markers into spaces and strip the ends. -/
def BPETokenizer.decode (self : BPETokenizer) (ids : List Nat) : List Char :=
  pyStrip (replaceMarker ((decodeTokens self.reverse_vocab ids).flatten))

/-- The persisted form of a `BPETokenizer`:
`{"vocab": ..., "merges": ..., "vocab_size": ..., "type": "BPETokenizer"}`. -/
structure SavedBPE where
  vocab : List (Token × Nat)
  merges : List (Token × Token)
  vocab_size : Nat
  tag : List Char
deriving DecidableEq

def BPETokenizer.save (self : BPETokenizer) : SavedBPE :=
  ⟨self.vocab, self.merges, self.vocab_size, "BPETokenizer".data⟩

/-- `BPETokenizer.load`: check the type tag, then replace vocab, merges and
target size and rebuild the reverse vocab; `word_freqs` is left untouched. -/
def BPETokenizer.load (self : BPETokenizer) (d : SavedBPE) :
    Except (List Char) BPETokenizer :=
  if d.tag = "BPETokenizer".data then
    .ok { vocab_size := d.vocab_size, vocab := d.vocab,
          reverse_vocab := buildReverseVocab d.vocab, merges := d.merges,
          word_freqs := self.word_freqs }
  else .error "File is not a BPETokenizer".data

-- ## Concrete inputs used by witnesses and counterexamples

/-- The longest-match example vocabulary `{"hello": 1, "h": 2, "ello": 3}`. -/
def helloVocab : List (Token × Nat) :=
  [("hello".data, 1), ("h".data, 2), ("ello".data, 3)]

/-- The concrete-scenario vocabulary `{"Hello": 1, " world": 2, "!": 3}`. -/
def scenarioVocab : List (Token × Nat) :=
  [("Hello".data, 1), (" world".data, 2), ("!".data, 3)]

/-- `"Hello world!"` decomposed into the scenario vocabulary's tokens. -/
def scenarioTokens : List Token := ["Hello".data, " world".data, "!".data]

/-- A single word of 97 distinct characters (code points 256–352, none of
them whitespace): its training corpus starts with more than 100 character
tokens. -/
def wideText : List Char := (List.range 97).map (fun i => Char.ofNat (256 + i))

/-- A corpus whose most frequent pairs build the string `"<UNK>"`, which
collides with the reserved special token already present in the vocab. -/
def unkText : List Char := "a<UNK> b<UNK> c<UNK>".data

/-- A freshly constructed BPE tokenizer with target size 100 (the value
`mkBPETokenizer 100` returns). -/
def freshBPE : BPETokenizer :=
  { vocab_size := 100, vocab := specialVocab,
    reverse_vocab := specialReverseVocab, merges := [], word_freqs := [] }

/-- Decidable condition under which greedy encoding inverts exactly the given
decomposition `ts` of a text (the spec's "no overlapping ambiguity"): at each
decomposition boundary the longest vocabulary match is exactly the next
token of `ts`, that token's id decodes back to it, and it is not special. -/
def greedyRoundTrip (st : SimpleTokenizer) : List Token → Bool
  | [] => true
  | t :: rest =>
    (match scanMatch st.vocab ((t :: rest).flatten) with
     | some (m, id) =>
       decide (m = t) &&
       (match dictGet? st.reverse_vocab id with
        | some t' => decide (t' = t)
        | none => false) &&
       decide (t ∉ specialTokens)
     | none => false) &&
    greedyRoundTrip st rest

-- ## Lemmas about the dictionary model

/-- `dictInsert` grows a dict by at most one entry. -/
lemma dictInsert_length_le {α β : Type} [DecidableEq α] (d : List (α × β)) (k : α) (v : β) :
    (dictInsert d k v).length ≤ d.length + 1 := by
  induction d with
  | nil => simp [dictInsert]
  | cons p rest ih =>
    obtain ⟨k', v'⟩ := p
    simp only [dictInsert]
    split
    · simp
    · simpa using Nat.succ_le_succ ih

-- ## Lemmas about the greedy scan

/-- Whatever `scanMatchAux` returns is a nonempty prefix of `s` present in
the vocabulary. -/
lemma scanMatchAux_some (vocab : List (Token × Nat)) (s : Token) :
    ∀ n m id, scanMatchAux vocab s n = some (m, id) →
      ∃ j, j < n ∧ m = s.take (j + 1) ∧ dictGet? vocab m = some id := by
  intro n
  induction n with
  | zero => intro m id h; simp [scanMatchAux] at h
  | succ k ih =>
    intro m id h
    simp only [scanMatchAux] at h
    cases hg : dictGet? vocab (s.take (k + 1)) with
    | some v =>
      rw [hg] at h
      simp only [Option.some.injEq, Prod.mk.injEq] at h
      exact ⟨k, Nat.lt_succ_self k, h.1.symm, by rw [← h.1, hg, h.2]⟩
    | none =>
      rw [hg] at h
      obtain ⟨j, hj, h1, h2⟩ := ih m id h
      exact ⟨j, Nat.lt_succ_of_lt hj, h1, h2⟩

/-- If no prefix of `s` of length `1 .. n` is in the vocabulary, the scan
finds nothing. -/
lemma scanMatchAux_none (vocab : List (Token × Nat)) (s : Token) :
    ∀ n, (∀ j, j < n → dictGet? vocab (s.take (j + 1)) = none) →
      scanMatchAux vocab s n = none := by
  intro n
  induction n with
  | zero => intro _; rfl
  | succ k ih =>
    intro h
    simp only [scanMatchAux]
    rw [h k (Nat.lt_succ_self k)]
    exact ih (fun j hj => h j (Nat.lt_succ_of_lt hj))

/-- If the prefix of length `jm + 1` is in the vocabulary and every longer
prefix scanned is not, the scan returns exactly that prefix and its id. -/
lemma scanMatchAux_eq (vocab : List (Token × Nat)) (s : Token) (jm id : Nat)
    (hid : dictGet? vocab (s.take (jm + 1)) = some id) :
    ∀ n, jm < n →
      (∀ j, jm < j → j < n → dictGet? vocab (s.take (j + 1)) = none) →
      scanMatchAux vocab s n = some (s.take (jm + 1), id) := by
  intro n
  induction n with
  | zero => intro h; exact absurd h (Nat.not_lt_zero _)
  | succ k ih =>
    intro hlt hnone
    simp only [scanMatchAux]
    rcases Nat.lt_succ_iff_lt_or_eq.mp hlt with hk | hk
    · rw [hnone k hk (Nat.lt_succ_self k)]
      exact ih hk (fun j h1 h2 => hnone j h1 (Nat.lt_succ_of_lt h2))
    · subst hk
      rw [hid]

/-- `encodeFuel` does not depend on the fuel once it covers the text length. -/
lemma encodeFuel_congr (vocab : List (Token × Nat)) :
    ∀ f1 s f2, List.length s ≤ f1 → List.length s ≤ f2 →
      encodeFuel vocab f1 s = encodeFuel vocab f2 s := by
  intro f1
  induction f1 with
  | zero =>
    intro s f2 h1 _
    have hs : s = [] := List.length_eq_zero.mp (Nat.le_zero.mp h1)
    subst hs
    cases f2 <;> rfl
  | succ k ih =>
    intro s f2 h1 h2
    cases s with
    | nil => cases f2 <;> rfl
    | cons c rest =>
      cases f2 with
      | zero => simp at h2
      | succ k2 =>
        simp only [List.length_cons, Nat.succ_le_succ_iff] at h1 h2
        simp only [encodeFuel]
        cases hsm : scanMatch vocab (c :: rest) with
        | none =>
          rw [ih rest k2 h1 h2]
        | some p =>
          obtain ⟨m, id⟩ := p
          obtain ⟨j, _, hm, _⟩ := scanMatchAux_some vocab (c :: rest) _ m id hsm
          have hml : 1 ≤ m.length := by
            rw [hm]
            simp only [List.length_take, List.length_cons]
            omega
          have hd : ((c :: rest).drop m.length).length ≤ k ∧
              ((c :: rest).drop m.length).length ≤ k2 := by
            simp only [List.length_drop, List.length_cons]
            omega
          dsimp only
          congr 1
          exact ih _ k2 hd.1 hd.2

/-- One encode step at a matched position: emit the id of the longest match
and continue after it. -/
lemma greedyEncode_step (vocab : List (Token × Nat)) (s m : List Char) (id : Nat)
    (h : scanMatch vocab s = some (m, id)) :
    greedyEncode vocab s = id :: greedyEncode vocab (s.drop m.length) := by
  obtain ⟨j, _, hm, _⟩ := scanMatchAux_some vocab s _ m id h
  cases s with
  | nil => simp [scanMatch, scanMatchAux] at h
  | cons c rest =>
    have hml : 1 ≤ m.length := by
      rw [hm]
      simp only [List.length_take, List.length_cons]
      omega
    unfold greedyEncode
    simp only [List.length_cons, encodeFuel, h]
    congr 1
    apply encodeFuel_congr
    · simp only [List.length_drop, List.length_cons]
      omega
    · exact Nat.le_refl _

/-- One encode step at an unmatched position: emit `UNK_ID` and advance by
one character. -/
lemma greedyEncode_unk (vocab : List (Token × Nat)) (c : Char) (rest : List Char)
    (h : scanMatch vocab (c :: rest) = none) :
    greedyEncode vocab (c :: rest) = UNK_ID :: greedyEncode vocab rest := by
  unfold greedyEncode
  simp only [List.length_cons, encodeFuel, h]

/-- Claim C2: for every text and vocabulary, `SimpleTokenizer.encode` at each
scan position emits the id of the longest substring starting there that is
present in the vocabulary and advances by its length (`s` is the suffix at
the scan position, `m` the longest vocabulary prefix of `s`). -/
theorem encode_longest_match (st : SimpleTokenizer) (s m : List Char) (id : Nat)
    (hpre : ∃ j, j < s.length ∧ m = s.take (j + 1))
    (hmem : dictGet? st.vocab m = some id)
    (hmax : ∀ j, j < s.length → m.length ≤ j → dictGet? st.vocab (s.take (j + 1)) = none) :
    st.encode s = id :: st.encode (s.drop m.length) := by
  obtain ⟨jm, hjm, hm⟩ := hpre
  have hml : m.length = jm + 1 := by
    rw [hm]
    simp only [List.length_take]
    omega
  have hsm : scanMatch st.vocab s = some (m, id) := by
    rw [scanMatch, hm]
    rw [hm] at hmem
    exact scanMatchAux_eq st.vocab s jm id hmem s.length hjm
      (fun j h1 h2 => hmax j h2 (by omega))
  exact greedyEncode_step st.vocab s m id hsm

/-- Witness for C2: with vocabulary `{"hello": 1, "h": 2, "ello": 3}`,
`encode "hello"` is `[1]` (and in particular not `[2, 3]`). -/
theorem encode_longest_match_hello :
    (mkSimpleTokenizer helloVocab).encode "hello".data = [1] := by
  have h := encode_longest_match (mkSimpleTokenizer helloVocab) "hello".data "hello".data 1
    ⟨4, by decide, by decide⟩ (by decide) (by decide)
  rw [h]
  rfl

/-- Claim C6: whenever `SimpleTokenizer.encode` reaches a position where no
substring starting there (not even the single character) is in the
vocabulary, it emits exactly one `UNK_ID` and advances exactly one
position. -/
theorem unknown_char_fallback (st : SimpleTokenizer) (c : Char) (rest : List Char)
    (h : ∀ j, j < (c :: rest).length → dictGet? st.vocab ((c :: rest).take (j + 1)) = none) :
    st.encode (c :: rest) = UNK_ID :: st.encode rest :=
  greedyEncode_unk st.vocab c rest (scanMatchAux_none st.vocab (c :: rest) (c :: rest).length h)

/-- Witness for C6: on `"xh"` with the hello vocabulary, the position at
`'x'` matches nothing and produces exactly one `UNK_ID`. -/
theorem unknown_char_fallback_example :
    (mkSimpleTokenizer helloVocab).encode ('x' :: "h".data) =
      UNK_ID :: (mkSimpleTokenizer helloVocab).encode "h".data :=
  unknown_char_fallback (mkSimpleTokenizer helloVocab) 'x' "h".data (by decide)

-- ## Lemmas about decoding

lemma decodeTokens_append (rv : List (Nat × Token)) (l1 l2 : List Nat) :
    decodeTokens rv (l1 ++ l2) = decodeTokens rv l1 ++ decodeTokens rv l2 := by
  induction l1 with
  | nil => rfl
  | cons i rest ih =>
    simp only [List.cons_append, decodeTokens]
    cases hg : dictGet? rv i with
    | some tok =>
      dsimp only
      split <;> simp [ih]
    | none =>
      dsimp only
      simp [ih]

/-- Claim C3: for every text that is a concatenation of vocabulary tokens
with no overlapping ambiguity (formalized by `greedyRoundTrip`),
`decode (encode t) = t`. -/
theorem decode_encode_roundtrip (st : SimpleTokenizer) (ts : List Token)
    (h : greedyRoundTrip st ts = true) :
    st.decode (st.encode ts.flatten) = ts.flatten := by
  induction ts with
  | nil => rfl
  | cons t rest ih =>
    simp only [greedyRoundTrip, Bool.and_eq_true] at h
    obtain ⟨h1, hrest⟩ := h
    cases hsm : scanMatch st.vocab ((t :: rest).flatten) with
    | none => rw [hsm] at h1; simp at h1
    | some p =>
      obtain ⟨m, id⟩ := p
      rw [hsm] at h1
      dsimp only at h1
      simp only [Bool.and_eq_true, decide_eq_true_eq] at h1
      obtain ⟨⟨hm, hB⟩, hns⟩ := h1
      have hrv : dictGet? st.reverse_vocab id = some t := by
        cases hg : dictGet? st.reverse_vocab id with
        | none => rw [hg] at hB; simp at hB
        | some t' => rw [hg] at hB; simp only [decide_eq_true_eq] at hB; rw [hB]
      subst hm
      simp only [SimpleTokenizer.encode, SimpleTokenizer.decode] at ih ⊢
      have hstep := greedyEncode_step st.vocab ((m :: rest).flatten) m id hsm
      have hdrop : ((m :: rest).flatten).drop m.length = rest.flatten := by
        rw [List.flatten_cons]
        exact List.drop_left m rest.flatten
      rw [hstep, hdrop]
      simp only [decodeTokens]
      rw [hrv]
      dsimp only
      rw [if_neg hns, List.flatten_cons, ih hrest, List.flatten_cons]

/-- Witness for C3: the spec's concrete scenario, vocabulary
`{"Hello": 1, " world": 2, "!": 3}` on `"Hello world!"`. -/
theorem decode_encode_roundtrip_scenario :
    (mkSimpleTokenizer scenarioVocab).decode
        ((mkSimpleTokenizer scenarioVocab).encode scenarioTokens.flatten) =
      scenarioTokens.flatten :=
  decode_encode_roundtrip (mkSimpleTokenizer scenarioVocab) scenarioTokens (by decide)

-- ## Lemmas about merge replay

/-- One merge pass neither adds, drops nor reorders characters. -/
lemma mergePass_flatten_le (token1 token2 : Token) :
    ∀ n l, List.length l ≤ n → (mergePass token1 token2 l).flatten = l.flatten := by
  intro n
  induction n with
  | zero =>
    intro l h
    have hl : l = [] := List.length_eq_zero.mp (Nat.le_zero.mp h)
    subst hl
    rfl
  | succ k ih =>
    intro l h
    match l with
    | [] => rfl
    | [t] => rfl
    | t :: t2 :: rest =>
      simp only [List.length_cons] at h
      simp only [mergePass]
      split
      · rename_i hc
        simp only [List.flatten_cons]
        rw [ih rest (by omega), hc.1, hc.2, List.append_assoc]
      · simp only [List.flatten_cons]
        rw [ih (t2 :: rest) (by simp only [List.length_cons]; omega)]
        simp only [List.flatten_cons]

lemma mergePass_flatten (token1 token2 : Token) (l : List Token) :
    (mergePass token1 token2 l).flatten = l.flatten :=
  mergePass_flatten_le token1 token2 l.length l (Nat.le_refl _)

lemma foldl_mergePass_flatten :
    ∀ (merges : List (Token × Token)) (tokens : List Token),
      (merges.foldl (fun ts p => mergePass p.1 p.2 ts) tokens).flatten = tokens.flatten := by
  intro merges
  induction merges with
  | nil => intro tokens; rfl
  | cons p ms ih =>
    intro tokens
    simp only [List.foldl_cons]
    rw [ih (mergePass p.1 p.2 tokens), mergePass_flatten]

lemma flatten_map_singleton (w : List Char) :
    (w.map (fun c => [c])).flatten = w := by
  induction w with
  | nil => rfl
  | cons c rest ih => simp [ih]

/-- Claim C10: for every word and merge list, the concatenation of
`_word_to_tokens(word)` is exactly the word. -/
theorem word_to_tokens_concat (merges : List (Token × Token)) (word : Token) :
    (word_to_tokens merges word).flatten = word := by
  unfold word_to_tokens
  rw [foldl_mergePass_flatten, flatten_map_singleton]

-- ## Lemmas about unknown-input substitution

lemma tokensToIds_unk_mem (vocab : List (Token × Nat)) (ts : List Token) (t : Token)
    (ht : t ∈ ts) (hv : dictGet? vocab t = none) : UNK_ID ∈ tokensToIds vocab ts := by
  induction ts with
  | nil => cases ht
  | cons a rest ih =>
    simp only [tokensToIds]
    rcases List.mem_cons.mp ht with h | h
    · subst h
      rw [hv]
      exact List.mem_cons_self _ _
    · exact List.mem_cons_of_mem _ (ih h)

lemma bpe_encode_unk_mem (bt : BPETokenizer) (text : List Char) (w t : Token)
    (hw : w ∈ pySplit text) (ht : t ∈ word_to_tokens bt.merges (markerChar :: w))
    (hv : dictGet? bt.vocab t = none) : UNK_ID ∈ bt.encode text := by
  unfold BPETokenizer.encode
  exact List.mem_flatten.mpr
    ⟨_, List.mem_map_of_mem _ hw, tokensToIds_unk_mem _ _ t ht hv⟩

lemma mem_dropWhile_of_not (p : Char → Bool) (l : List Char) (c : Char)
    (hc : c ∈ l) (hp : p c = false) : c ∈ l.dropWhile p := by
  rw [← List.takeWhile_append_dropWhile (p := p) (l := l)] at hc
  rcases List.mem_append.mp hc with h | h
  · exact absurd (List.mem_takeWhile_imp h) (by simp [hp])
  · exact h

lemma mem_pyStrip (s : List Char) (c : Char) (hc : c ∈ s) (hp : isPySpace c = false) :
    c ∈ pyStrip s := by
  unfold pyStrip
  apply List.mem_reverse.mpr
  apply mem_dropWhile_of_not _ _ _ ?_ hp
  apply List.mem_reverse.mpr
  exact mem_dropWhile_of_not _ _ _ hc hp

/-- Claim C7: unknown input is never an error: encode substitutes `UNK_ID`
for a token absent from the vocabulary; both decoders substitute a literal
`'?'` for an id with no vocabulary entry. -/
theorem unknown_inputs_never_error (bt : BPETokenizer) (st : SimpleTokenizer)
    (text : List Char) (w t : Token) (i : Nat) (pre post : List Nat)
    (hw : w ∈ pySplit text) (ht : t ∈ word_to_tokens bt.merges (markerChar :: w))
    (hv : dictGet? bt.vocab t = none)
    (hib : dictGet? bt.reverse_vocab i = none)
    (his : dictGet? st.reverse_vocab i = none) :
    UNK_ID ∈ bt.encode text ∧
    st.decode (pre ++ i :: post) = st.decode pre ++ '?' :: st.decode post ∧
    '?' ∈ bt.decode (pre ++ i :: post) := by
  refine ⟨bpe_encode_unk_mem bt text w t hw ht hv, ?_, ?_⟩
  · simp only [SimpleTokenizer.decode, decodeTokens_append, decodeTokens, his]
    simp [List.flatten_append]
  · unfold BPETokenizer.decode
    apply mem_pyStrip _ _ ?_ (by decide)
    unfold replaceMarker
    apply List.mem_map.mpr
    refine ⟨'?', ?_, by decide⟩
    rw [decodeTokens_append]
    apply List.mem_flatten.mpr
    refine ⟨['?'], ?_, by decide⟩
    apply List.mem_append.mpr
    right
    simp only [decodeTokens, hib]
    exact List.mem_cons_self _ _

/-- Witness for C7: a fresh BPE tokenizer on the unseen word `"b"` emits
`UNK_ID`, and id `9`, absent from both reverse vocabularies, decodes to
`'?'` in both decoders. -/
theorem unknown_inputs_never_error_example :
    UNK_ID ∈ freshBPE.encode "b".data ∧
    (mkSimpleTokenizer []).decode ([] ++ 9 :: []) =
      (mkSimpleTokenizer []).decode [] ++ '?' :: (mkSimpleTokenizer []).decode [] ∧
    '?' ∈ freshBPE.decode ([] ++ 9 :: []) :=
  unknown_inputs_never_error freshBPE (mkSimpleTokenizer []) "b".data "b".data ['b'] 9 [] []
    (by decide) (by decide) (by decide) (by decide) (by decide)

-- ## Lemmas about the training loop

lemma merge_pair_vocab_le (vocab : List (Token × Nat)) (rv : List (Nat × Token))
    (pair : Token × Token) :
    (merge_pair vocab rv pair).1.length ≤ vocab.length + 1 :=
  dictInsert_length_le _ _ _

lemma trainLoop_vocab_size : ∀ (fuel : Nat) (t : BPETokenizer),
    (trainLoop t fuel).vocab_size = t.vocab_size := by
  intro fuel
  induction fuel with
  | zero => intro t; rfl
  | succ k ih =>
    intro t
    simp only [trainLoop]
    split
    · cases hmp : maxPairKey (count_pairs t.word_freqs t.merges) with
      | none => rfl
      | some pair => rw [ih]
    · rfl

/-- The loop only runs while the vocabulary is below target and each
iteration adds at most one entry, so the result never exceeds
`max target initial`. -/
lemma trainLoop_vocab_le : ∀ (fuel : Nat) (t : BPETokenizer),
    (trainLoop t fuel).vocab.length ≤ max t.vocab_size t.vocab.length := by
  intro fuel
  induction fuel with
  | zero => intro t; exact Nat.le_max_right _ _
  | succ k ih =>
    intro t
    simp only [trainLoop]
    split
    · rename_i hlt
      cases hmp : maxPairKey (count_pairs t.word_freqs t.merges) with
      | none => exact Nat.le_max_right _ _
      | some pair =>
        have h1 := ih
          { t with
            vocab := (merge_pair t.vocab t.reverse_vocab pair).1,
            reverse_vocab := (merge_pair t.vocab t.reverse_vocab pair).2,
            merges := t.merges ++ [pair] }
        dsimp only at h1
        have h2 := merge_pair_vocab_le t.vocab t.reverse_vocab pair
        refine le_trans h1 ?_
        omega
    · exact Nat.le_max_right _ _

/-- Each iteration grows the vocabulary by at most one entry while appending
exactly one merge. -/
lemma trainLoop_merge_bound : ∀ (fuel : Nat) (t : BPETokenizer),
    (trainLoop t fuel).vocab.length + t.merges.length ≤
      t.vocab.length + (trainLoop t fuel).merges.length := by
  intro fuel
  induction fuel with
  | zero => intro t; simp only [trainLoop]; exact Nat.le_refl _
  | succ k ih =>
    intro t
    simp only [trainLoop]
    split
    · cases hmp : maxPairKey (count_pairs t.word_freqs t.merges) with
      | none => exact Nat.le_refl _
      | some pair =>
        have h1 := ih
          { t with
            vocab := (merge_pair t.vocab t.reverse_vocab pair).1,
            reverse_vocab := (merge_pair t.vocab t.reverse_vocab pair).2,
            merges := t.merges ++ [pair] }
        dsimp only at h1
        have h2 := merge_pair_vocab_le t.vocab t.reverse_vocab pair
        simp only [List.length_append, List.length_cons, List.length_nil] at h1
        dsimp only
        omega
    · exact Nat.le_refl _

/-- Claim C1 (amended): after training, the vocabulary size never exceeds
`max target initial`, where `initial` is the size after character
initialization (4 special tokens plus the initial single characters for a
fresh tokenizer) — in particular it never exceeds the target when the
initial vocabulary is within the target — and the number of entries beyond
`initial` is at most the length of the merge list. -/
theorem train_vocab_size_bounds (bt t' : BPETokenizer) (texts : List (List Char))
    (h : bt.train texts = .ok t') :
    t'.vocab.length ≤
      max bt.vocab_size
        (addCharTokens bt.vocab bt.reverse_vocab (countWordFreqs texts)).1.length ∧
    t'.vocab.length + bt.merges.length ≤
      (addCharTokens bt.vocab bt.reverse_vocab (countWordFreqs texts)).1.length +
        t'.merges.length := by
  unfold BPETokenizer.train at h
  split at h
  · exact Except.noConfusion h
  · rw [Except.ok.injEq] at h
    subst h
    constructor
    · have h1 := trainLoop_vocab_le (totalChars (countWordFreqs texts) + 1)
        { bt with
          word_freqs := countWordFreqs texts,
          vocab := (addCharTokens bt.vocab bt.reverse_vocab (countWordFreqs texts)).1,
          reverse_vocab := (addCharTokens bt.vocab bt.reverse_vocab (countWordFreqs texts)).2 }
      dsimp only at h1
      exact h1
    · have h1 := trainLoop_merge_bound (totalChars (countWordFreqs texts) + 1)
        { bt with
          word_freqs := countWordFreqs texts,
          vocab := (addCharTokens bt.vocab bt.reverse_vocab (countWordFreqs texts)).1,
          reverse_vocab := (addCharTokens bt.vocab bt.reverse_vocab (countWordFreqs texts)).2 }
      dsimp only at h1
      exact h1

/-- Witness for C1 (amended): a fresh target-100 tokenizer trained on
`["ab"]` satisfies both bounds. -/
theorem train_vocab_size_bounds_example :
    ∃ t0 t' : BPETokenizer,
      mkBPETokenizer 100 = .ok t0 ∧ t0.train ["ab".data] = .ok t' ∧
      (t'.vocab.length ≤
        max t0.vocab_size
          (addCharTokens t0.vocab t0.reverse_vocab (countWordFreqs ["ab".data])).1.length ∧
       t'.vocab.length + t0.merges.length ≤
        (addCharTokens t0.vocab t0.reverse_vocab (countWordFreqs ["ab".data])).1.length +
          t'.merges.length) := by
  refine ⟨freshBPE, _, rfl, rfl, train_vocab_size_bounds freshBPE _ ["ab".data] rfl⟩

set_option maxRecDepth 200000 in
/-- Counterexample for C1 as stated: (1) training a target-100 tokenizer on
one 97-character word yields a vocabulary of 102 entries, exceeding the
target, because character initialization ignores the target; (2) on the
`"<UNK>"`-building corpus one merge result collides with the reserved
special token, so the entries beyond the initial vocabulary number strictly
fewer than the merges. -/
theorem train_vocab_size_claim_false :
    (∃ t' : BPETokenizer, mkBPETokenizer 100 = .ok freshBPE ∧
        freshBPE.train [wideText] = .ok t' ∧
        freshBPE.vocab_size < t'.vocab.length) ∧
    (∃ t' : BPETokenizer, freshBPE.train [unkText] = .ok t' ∧
        t'.vocab.length ≠
          (addCharTokens freshBPE.vocab freshBPE.reverse_vocab
              (countWordFreqs [unkText])).1.length + t'.merges.length) := by
  constructor
  · exact ⟨_, rfl, rfl, by decide⟩
  · exact ⟨_, rfl, by decide⟩

/-- Claim C4: BPE training is deterministic — two runs from identically
constructed tokenizers on identical corpora give identical results (all
dict-iteration nondeterminism is resolved by insertion order, modeled
explicitly). -/
theorem train_deterministic (n : Nat) (texts1 texts2 : List (List Char))
    (t1 t2 : BPETokenizer)
    (h1 : mkBPETokenizer n = .ok t1) (h2 : mkBPETokenizer n = .ok t2)
    (ht : texts1 = texts2) :
    t1.train texts1 = t2.train texts2 ∧
    ∀ r1 r2, t1.train texts1 = .ok r1 → t2.train texts2 = .ok r2 →
      r1.vocab = r2.vocab ∧ r1.merges = r2.merges := by
  subst ht
  rw [h1, Except.ok.injEq] at h2
  subst h2
  refine ⟨rfl, fun r1 r2 e1 e2 => ?_⟩
  rw [e1, Except.ok.injEq] at e2
  subst e2
  exact ⟨rfl, rfl⟩

/-- Witness for C4 at target 100 on the corpus `["ab"]`. -/
theorem train_deterministic_example :
    ∃ t : BPETokenizer, mkBPETokenizer 100 = .ok t ∧
      t.train ["ab".data] = t.train ["ab".data] :=
  ⟨freshBPE, rfl,
    (train_deterministic 100 ["ab".data] ["ab".data] freshBPE freshBPE rfl rfl rfl).1⟩

set_option maxRecDepth 8192 in
/-- Claim C5: loading the artifact produced by save reproduces a tokenizer
with identical vocab (and merges and target size for BPE) and identical
encode output on every input text. -/
theorem save_load_roundtrip (st st0 : SimpleTokenizer) (bt bt0 : BPETokenizer) :
    (∃ st', st0.load st.save = .ok st' ∧ st'.vocab = st.vocab ∧
      ∀ text, st'.encode text = st.encode text) ∧
    (∃ bt', bt0.load bt.save = .ok bt' ∧ bt'.vocab = bt.vocab ∧
      bt'.merges = bt.merges ∧ bt'.vocab_size = bt.vocab_size ∧
      ∀ text, bt'.encode text = bt.encode text) := by
  constructor
  · exact ⟨_, rfl, rfl, fun _ => rfl⟩
  · exact ⟨_, rfl, rfl, rfl, rfl, fun _ => rfl⟩

/-- Claim C8: training on an empty corpus fails with the input error before
any state mutation: the tokenizer visible after the failed call is
unchanged. -/
theorem train_empty_corpus (bt : BPETokenizer) :
    bt.train [] = .error "Cannot train on empty corpus".data ∧
    bt.trainMut [] = (bt, some "Cannot train on empty corpus".data) :=
  ⟨rfl, rfl⟩

/-- Claim C9: construction rejects a target size strictly below 100 or
strictly above 50000 and succeeds on any size inside `[100, 50000]`. -/
theorem vocab_size_validation (n : Nat) :
    (n < MIN_VOCAB_SIZE ∨ MAX_VOCAB_SIZE < n →
      mkBPETokenizer n = .error "vocab_size must be between 100 and 50000".data) ∧
    (MIN_VOCAB_SIZE ≤ n → n ≤ MAX_VOCAB_SIZE →
      ∃ t, mkBPETokenizer n = .ok t ∧ t.vocab_size = n) := by
  constructor
  · intro h
    unfold mkBPETokenizer
    rw [if_pos h]
  · intro h1 h2
    unfold mkBPETokenizer
    rw [if_neg (by omega)]
    exact ⟨_, rfl, rfl⟩

/-- Witness for C9 at sizes 50 (too small), 50001 (too large) and 100
(accepted). -/
theorem vocab_size_validation_example :
    mkBPETokenizer 50 = .error "vocab_size must be between 100 and 50000".data ∧
    mkBPETokenizer 50001 = .error "vocab_size must be between 100 and 50000".data ∧
    (∃ t, mkBPETokenizer 100 = .ok t ∧ t.vocab_size = 100) :=
  ⟨(vocab_size_validation 50).1 (by decide),
   (vocab_size_validation 50001).1 (by decide),
   (vocab_size_validation 100).2 (by decide) (by decide)⟩

end MiniGPT
